import Mathlib

/-!
Verification of the sentence-boundary matcher (`src/pipecat/utils/string.py`)
and the Deepgram TTS/STT adapter (`src/pipecat/services/deepgram.py`).

Strings are modelled as `List Char` (Python `str` indices are character
offsets, as are `match.end()` values).  The regex character classes are
modelled over their ASCII members: `\d` as ASCII decimal digits, `\s` and
`str.rstrip`'s whitespace as the six ASCII whitespace characters; the
full-width terminators are the exact code points of the source.
-/

/-- Python whitespace (`str.isspace`, regex `\s`), ASCII members. -/
def isPySpace (c : Char) : Bool :=
  c = ' ' || c = '\t' || c = '\n' || c = '\r' || c = '\x0b' || c = '\x0c'

/-- The ASCII terminator class `[\.\?\!:;]` of both patterns. -/
def isEOSascii (c : Char) : Bool :=
  c = '.' || c = '?' || c = '!' || c = ':' || c = ';'

/-- The full-width terminator class `[。？！：；]` of both patterns. -/
def isEOSfull (c : Char) : Bool :=
  c = '。' || c = '？' || c = '！' || c = '：' || c = '；'

/-- The six negative lookbehinds shared by `ENDOFSENTENCE_PATTERN_STR` and
`ENDOFSENTENCES_PATTERN_STR`, evaluated on the REVERSED prefix of the text
before the candidate terminator: `(?<![A-Z])`, `(?<!\d)`, `(?<!\d\s[ap])`,
`(?<!Mr|Ms|Dr)`, `(?<!Mrs)`, `(?<!Prof)`.  `true` means some lookbehind
fails, i.e. the candidate match is suppressed. -/
def suppressedRev (r : List Char) : Bool :=
  (match r with
   | c :: _ => c.isUpper
   | [] => false) ||
  (match r with
   | c :: _ => c.isDigit
   | [] => false) ||
  (match r with
   | a :: s :: d :: _ => (a = 'a' || a = 'p') && isPySpace s && d.isDigit
   | _ => false) ||
  (match r with
   | b :: a :: _ => (a = 'M' && (b = 'r' || b = 's')) || (a = 'D' && b = 'r')
   | _ => false) ||
  (match r with
   | c :: b :: a :: _ => a = 'M' && b = 'r' && c = 's'
   | _ => false) ||
  (match r with
   | d :: c :: b :: a :: _ => a = 'P' && b = 'r' && c = 'o' && d = 'f'
   | _ => false)

/-- Python `str.rstrip()`: remove trailing whitespace. -/
def rstrip (s : List Char) : List Char :=
  (s.reverse.dropWhile isPySpace).reverse

/-- `ENDOFSENTENCE_PATTERN.search`: because the alternation
`[\.\?\!:;]|[。？！：；]$` is not grouped, the compiled pattern has two
top-level branches, tried at each position from the left:
branch A, the six lookbehinds followed by an ASCII terminator (anywhere);
branch B, a full-width terminator followed by `$` (no lookbehinds).
Both branches consume one character, so a match at index `i` has
`match.end() = i + 1`; returns `0` when there is no match, matching
`match.end() if match else 0`.  First argument: reversed prefix already
scanned; second: remaining text; third: current index. -/
def matchEOSaux : List Char → List Char → Nat → Nat
  | _, [], _ => 0
  | rp, c :: rest, i =>
    if isEOSascii c && !suppressedRev rp then i + 1
    else if isEOSfull c && rest.isEmpty then i + 1
    else matchEOSaux (c :: rp) rest (i + 1)

/-- `match_endofsentence(text)` from `src/pipecat/utils/string.py`. -/
def match_endofsentence (text : String) : Nat :=
  matchEOSaux [] (rstrip text.toList) 0

/-- `[match.end() for match in ENDOFSENTENCES_PATTERN.finditer(text)]`:
the plural pattern groups its alternation `(?:[\.\?\!:;]|[。？！：；])`, so
the lookbehinds apply to BOTH terminator classes and nothing is anchored;
every match is a single character. -/
def endIndicesAux : List Char → List Char → Nat → List Nat
  | _, [], _ => []
  | rp, c :: rest, i =>
    if (isEOSascii c || isEOSfull c) && !suppressedRev rp then
      (i + 1) :: endIndicesAux (c :: rp) rest (i + 1)
    else
      endIndicesAux (c :: rp) rest (i + 1)

/-- The `end_indices` list computed inside `find_endofsentences`. -/
def endIndicesList (s : List Char) : List Nat :=
  endIndicesAux [] s 0

/-- `find_endofsentences(text)`: despite the `list[int]` annotation the
body returns `end_indices[-1] if end_indices else 0`, a single integer. -/
def find_endofsentences (text : String) : Nat :=
  (endIndicesList text.toList).getLastD 0

/-- One attempt of the singular pattern at index `k` of `rest`, where `rp` is
the reversed text standing before `rest`: branch A is an ASCII terminator
guarded by the lookbehinds, branch B a full-width terminator at the very
end. -/
def stepMatch (rp rest : List Char) (k : Nat) : Bool :=
  match rest.drop k with
  | [] => false
  | c :: r2 =>
    (isEOSascii c && !suppressedRev ((rest.take k).reverse ++ rp)) ||
    (isEOSfull c && r2.isEmpty)

/-- Whether `ENDOFSENTENCE_PATTERN` matches at character index `k` of `s`. -/
def eosMatchAt (s : List Char) (k : Nat) : Bool :=
  stepMatch [] s k

/-- One attempt of the plural pattern at index `k` of `rest`: any terminator
(ASCII or full-width), guarded by the lookbehinds. -/
def stepAny (rp rest : List Char) (k : Nat) : Bool :=
  match rest.drop k with
  | [] => false
  | c :: _ =>
    (isEOSascii c || isEOSfull c) && !suppressedRev ((rest.take k).reverse ++ rp)

/-- Whether `ENDOFSENTENCES_PATTERN` matches at character index `k` of `s`. -/
def eosAnyAt (s : List Char) (k : Nat) : Bool :=
  stepAny [] s k

lemma stepMatch_zero (rp : List Char) (c : Char) (rest : List Char) :
    stepMatch rp (c :: rest) 0 =
      ((isEOSascii c && !suppressedRev rp) || (isEOSfull c && rest.isEmpty)) := rfl

lemma stepMatch_succ (rp : List Char) (c : Char) (rest : List Char) (k : Nat) :
    stepMatch rp (c :: rest) (k + 1) = stepMatch (c :: rp) rest k := by
  unfold stepMatch
  rw [List.drop_succ_cons, List.take_succ_cons]
  cases h : rest.drop k with
  | nil => rfl
  | cons d r2 => simp [List.reverse_cons, List.append_assoc]

lemma stepAny_zero (rp : List Char) (c : Char) (rest : List Char) :
    stepAny rp (c :: rest) 0 = ((isEOSascii c || isEOSfull c) && !suppressedRev rp) := rfl

lemma stepAny_succ (rp : List Char) (c : Char) (rest : List Char) (k : Nat) :
    stepAny rp (c :: rest) (k + 1) = stepAny (c :: rp) rest k := by
  unfold stepAny
  rw [List.drop_succ_cons, List.take_succ_cons]
  cases h : rest.drop k with
  | nil => rfl
  | cons d r2 => simp [List.reverse_cons, List.append_assoc]

lemma forall_stepMatch_cons (rp : List Char) (c : Char) (rest : List Char) :
    (∀ k, stepMatch rp (c :: rest) k = false) ↔
      (stepMatch rp (c :: rest) 0 = false ∧ ∀ k, stepMatch (c :: rp) rest k = false) := by
  constructor
  · intro h
    refine ⟨h 0, fun k => ?_⟩
    rw [← stepMatch_succ]
    exact h (k + 1)
  · rintro ⟨h0, h⟩ k
    cases k with
    | zero => exact h0
    | succ k => rw [stepMatch_succ]; exact h k

lemma forall_stepAny_cons (rp : List Char) (c : Char) (rest : List Char) :
    (∀ k, stepAny rp (c :: rest) k = false) ↔
      (stepAny rp (c :: rest) 0 = false ∧ ∀ k, stepAny (c :: rp) rest k = false) := by
  constructor
  · intro h
    refine ⟨h 0, fun k => ?_⟩
    rw [← stepAny_succ]
    exact h (k + 1)
  · rintro ⟨h0, h⟩ k
    cases k with
    | zero => exact h0
    | succ k => rw [stepAny_succ]; exact h k

lemma matchEOSaux_eq_zero_iff (rest : List Char) : ∀ (rp : List Char) (i : Nat),
    matchEOSaux rp rest i = 0 ↔ ∀ k, stepMatch rp rest k = false := by
  induction rest with
  | nil =>
    intro rp i
    constructor
    · intro _ k; simp [stepMatch]
    · intro _; rfl
  | cons c rest ih =>
    intro rp i
    rw [forall_stepMatch_cons, stepMatch_zero]
    cases hA : (isEOSascii c && !suppressedRev rp) with
    | true => simp [matchEOSaux, hA]
    | false =>
      cases hB : (isEOSfull c && rest.isEmpty) with
      | true => simp [matchEOSaux, hA, hB]
      | false => simp [matchEOSaux, hA, hB, ih]

lemma matchEOSaux_first (rest : List Char) : ∀ (rp : List Char) (i k : Nat),
    stepMatch rp rest k = true → (∀ j, j < k → stepMatch rp rest j = false) →
    matchEOSaux rp rest i = i + k + 1 := by
  induction rest with
  | nil =>
    intro rp i k hk _
    simp [stepMatch] at hk
  | cons c rest ih =>
    intro rp i k hk hmin
    cases k with
    | zero =>
      rw [stepMatch_zero] at hk
      cases hA : (isEOSascii c && !suppressedRev rp) with
      | true => simp [matchEOSaux, hA]
      | false =>
        rw [hA] at hk
        simp only [Bool.false_or] at hk
        simp [matchEOSaux, hA, hk]
    | succ k =>
      have h0 := hmin 0 (Nat.succ_pos k)
      rw [stepMatch_zero] at h0
      have hA : (isEOSascii c && !suppressedRev rp) = false := by
        cases h : (isEOSascii c && !suppressedRev rp) with
        | false => rfl
        | true => rw [h] at h0; simp at h0
      have hB : (isEOSfull c && rest.isEmpty) = false := by
        cases h : (isEOSfull c && rest.isEmpty) with
        | false => rfl
        | true => rw [h] at h0; simp at h0
      rw [stepMatch_succ] at hk
      have hmin' : ∀ j, j < k → stepMatch (c :: rp) rest j = false := by
        intro j hj
        rw [← stepMatch_succ]
        exact hmin (j + 1) (Nat.succ_lt_succ hj)
      have hrec := ih (c :: rp) (i + 1) k hk hmin'
      have hstep : matchEOSaux rp (c :: rest) i = matchEOSaux (c :: rp) rest (i + 1) := by
        simp [matchEOSaux, hA, hB]
      rw [hstep, hrec]
      omega

lemma endIndicesAux_nil_iff (rest : List Char) : ∀ (rp : List Char) (i : Nat),
    endIndicesAux rp rest i = [] ↔ ∀ k, stepAny rp rest k = false := by
  induction rest with
  | nil =>
    intro rp i
    constructor
    · intro _ k; simp [stepAny]
    · intro _; rfl
  | cons c rest ih =>
    intro rp i
    rw [forall_stepAny_cons, stepAny_zero]
    cases hA : ((isEOSascii c || isEOSfull c) && !suppressedRev rp) with
    | true => simp [endIndicesAux, hA]
    | false => simp [endIndicesAux, hA, ih]

lemma getLastD_eq_of_ne_nil {α : Type} (l : List α) (h : l ≠ []) (d e : α) :
    l.getLastD d = l.getLastD e := by
  rw [List.getLastD_eq_getLast?, List.getLastD_eq_getLast?]
  cases hq : l.getLast? with
  | none => exact absurd (List.getLast?_eq_none_iff.mp hq) h
  | some x => rfl

lemma endIndicesAux_getLastD (rest : List Char) : ∀ (rp : List Char) (i k : Nat),
    stepAny rp rest k = true → (∀ j, k < j → stepAny rp rest j = false) →
    (endIndicesAux rp rest i).getLastD 0 = i + k + 1 := by
  induction rest with
  | nil =>
    intro rp i k hk _
    simp [stepAny] at hk
  | cons c rest ih =>
    intro rp i k hk hmax
    cases k with
    | zero =>
      rw [stepAny_zero] at hk
      have htail : endIndicesAux (c :: rp) rest (i + 1) = [] := by
        rw [endIndicesAux_nil_iff]
        intro j
        rw [← stepAny_succ]
        exact hmax (j + 1) (Nat.succ_pos j)
      simp [endIndicesAux, hk, htail]
    | succ k =>
      rw [stepAny_succ] at hk
      have hmax' : ∀ j, k < j → stepAny (c :: rp) rest j = false := by
        intro j hj
        rw [← stepAny_succ]
        exact hmax (j + 1) (Nat.succ_lt_succ hj)
      have hlast := ih (c :: rp) (i + 1) k hk hmax'
      have htail : endIndicesAux (c :: rp) rest (i + 1) ≠ [] := by
        intro hnil
        rw [endIndicesAux_nil_iff] at hnil
        rw [hnil k] at hk
        exact Bool.false_ne_true hk
      cases hA : ((isEOSascii c || isEOSfull c) && !suppressedRev rp) with
      | false =>
        have hstep : endIndicesAux rp (c :: rest) i = endIndicesAux (c :: rp) rest (i + 1) := by
          simp [endIndicesAux, hA]
        rw [hstep, hlast]
        omega
      | true =>
        have hstep : endIndicesAux rp (c :: rest) i =
            (i + 1) :: endIndicesAux (c :: rp) rest (i + 1) := by
          simp [endIndicesAux, hA]
        rw [hstep, List.getLastD_cons, getLastD_eq_of_ne_nil _ htail (i + 1) 0, hlast]
        omega

lemma dropWhile_append_of_forall {α : Type} (p : α → Bool) :
    ∀ (a b : List α), (∀ c ∈ a, p c = true) → List.dropWhile p (a ++ b) = List.dropWhile p b := by
  intro a
  induction a with
  | nil => intro b _; rfl
  | cons x a ih =>
    intro b h
    have hx : p x = true := h x (List.mem_cons_self x a)
    simp only [List.cons_append, List.dropWhile_cons, hx, if_true]
    exact ih b (fun c hc => h c (List.mem_cons_of_mem x hc))

lemma rstrip_append_ws (t w : List Char) (h : ∀ c ∈ w, isPySpace c = true) :
    rstrip (t ++ w) = rstrip t := by
  unfold rstrip
  rw [List.reverse_append,
    dropWhile_append_of_forall isPySpace w.reverse t.reverse
      (fun c hc => h c (List.mem_reverse.mp hc))]

lemma toList_append (a b : String) : (a ++ b).toList = a.toList ++ b.toList := by
  cases a
  cases b
  rfl

example : match_endofsentence "Hello world." = 12 := by decide
example : match_endofsentence "Dr. Smith is here" = 0 := by decide
example : match_endofsentence "Hi. Bye" = 3 := by decide
example : match_endofsentence "It costs $3.00 a.m. approximately" = 19 := by decide
example : match_endofsentence "3。" = 2 := by decide
example : endIndicesList ("Hi there. How are you? Fine!").toList = [9, 22, 28] := by decide
example : find_endofsentences "Hi there. How are you? Fine!" = 28 := by decide
example : find_endofsentences "abc" = 0 := by decide

/-- C1: the spec claims `find_sentence_ends(text)` returns the ordered
sequence of offsets after every non-suppressed terminator.  The code
computes that sequence (`end_indices`, here `endIndicesList`), which on
"Hi there. How are you? Fine!" is `[9, 22, 28]`, but then returns
`end_indices[-1] if end_indices else 0`: the single integer `28`,
contradicting its own `list[int]` return annotation. -/
theorem find_endofsentences_scalar_eval :
    endIndicesList ("Hi there. How are you? Fine!").toList = [9, 22, 28] ∧
    find_endofsentences "Hi there. How are you? Fine!" = 28 := by
  decide

/-- C2: the spec claims `match_end_of_sentence` is anchored at the end of
the trimmed string and hence returns 0 on "Hi. Bye".  Because the
alternation `[\.\?\!:;]|[。？！：；]$` is ungrouped, the ASCII branch is not
anchored, and the code returns 3 (the offset after "Hi."). -/
theorem match_endofsentence_not_anchored_eval :
    match_endofsentence "Hi. Bye" = 3 := by
  decide

/-- C4: the spec claims `match_end_of_sentence("It costs $3.00 a.m.
approximately")` returns 0.  The unanchored ASCII branch matches the
non-suppressed period after "a.m" at offset 18, so the code returns 19. -/
theorem match_endofsentence_time_eval :
    match_endofsentence "It costs $3.00 a.m. approximately" = 19 := by
  decide

/-- C5: the spec claims the lookbehind suppression applies to full-width
terminators in `match_end_of_sentence`, e.g. a digit before `。` yields 0.
In the ungrouped singular pattern the full-width branch carries no
lookbehinds, so the code returns 2 on "3。"; the correctly grouped plural
pattern does suppress it (empty index list). -/
theorem match_endofsentence_fullwidth_eval :
    match_endofsentence "3。" = 2 ∧ endIndicesList ("3。").toList = [] := by
  decide

/-- C3 counterexample: in "Hi? Bye." the last non-suppressed terminator of
the trimmed text is the final period, offset 8, but
`match_endofsentence` returns 3 (the offset after the first match, "?"),
refuting the claim that it returns the offset after the LAST one. -/
theorem match_endofsentence_not_last_cex :
    (endIndicesList (rstrip ("Hi? Bye.").toList)).getLast? = some 8 ∧
    match_endofsentence "Hi? Bye." = 3 ∧
    match_endofsentence "Hi? Bye." ≠ 8 := by
  decide

/-- C3 (amended): `match_endofsentence` trims trailing whitespace and
returns the offset immediately after the FIRST (leftmost) match of its
pattern — a non-suppressed ASCII terminator anywhere, or a full-width
terminator at the very end of the trimmed text — and 0 exactly when the
pattern matches nowhere. -/
theorem match_endofsentence_first_match (text : String) :
    (match_endofsentence text = 0 ↔ ∀ k, eosMatchAt (rstrip text.toList) k = false) ∧
    (∀ k, eosMatchAt (rstrip text.toList) k = true →
      (∀ j, j < k → eosMatchAt (rstrip text.toList) j = false) →
      match_endofsentence text = k + 1) := by
  constructor
  · exact matchEOSaux_eq_zero_iff (rstrip text.toList) [] 0
  · intro k hk hmin
    have h := matchEOSaux_first (rstrip text.toList) [] 0 k hk hmin
    simpa [match_endofsentence] using h

/-- C3 witness: "Ok! sure" first (and only) pattern match is the "!" at
index 2, so the amended theorem computes the return value 3. -/
theorem match_endofsentence_first_match_witness :
    match_endofsentence "Ok! sure" = 3 :=
  (match_endofsentence_first_match "Ok! sure").2 2 (by decide) (by decide)

/-- C6: `match_endofsentence` is invariant under appended trailing
whitespace, and returns 0 on purely-whitespace (or empty) input. -/
theorem match_endofsentence_trailing_ws_invariant (t w : String)
    (h : ∀ c ∈ w.toList, isPySpace c = true) :
    match_endofsentence (t ++ w) = match_endofsentence t ∧
    match_endofsentence w = 0 := by
  constructor
  · unfold match_endofsentence
    rw [toList_append, rstrip_append_ws _ _ h]
  · have h0 : rstrip w.toList = [] := rstrip_append_ws [] w.toList h
    unfold match_endofsentence
    rw [h0]
    rfl

/-- C6 witness: appending " \t" to "Hi." does not change the result, and
" \t" alone yields 0. -/
theorem match_endofsentence_trailing_ws_invariant_witness :
    match_endofsentence ("Hi." ++ " \t") = match_endofsentence "Hi." ∧
    match_endofsentence " \t" = 0 :=
  match_endofsentence_trailing_ws_invariant "Hi." " \t" (by decide)

lemma eosAnyAt_eq_false_of_length_le (s : List Char) (k : Nat) (h : s.length ≤ k) :
    eosAnyAt s k = false := by
  unfold eosAnyAt stepAny
  rw [List.drop_eq_nil_of_le h]

/-- C9: `find_endofsentences` indeed returns a single integer — the offset
immediately after the LAST position where the (correctly grouped) plural
pattern matches, i.e. the last non-suppressed terminator, and 0 when the
pattern matches nowhere in the text. -/
theorem find_endofsentences_last_offset (text : String) :
    ((∀ k, eosAnyAt text.toList k = false) → find_endofsentences text = 0) ∧
    (∀ k, eosAnyAt text.toList k = true →
      (∀ j, k < j → eosAnyAt text.toList j = false) →
      find_endofsentences text = k + 1) := by
  constructor
  · intro h
    have hnil : endIndicesList text.toList = [] :=
      (endIndicesAux_nil_iff text.toList [] 0).mpr h
    unfold find_endofsentences
    rw [hnil]
    rfl
  · intro k hk hmax
    have h := endIndicesAux_getLastD text.toList [] 0 k hk hmax
    unfold find_endofsentences endIndicesList
    rw [h]
    omega

/-- C9 witness: in "One. Two." the last non-suppressed terminator is the
final period at index 8, and the function returns the single integer 9. -/
theorem find_endofsentences_last_offset_witness :
    find_endofsentences "One. Two." = 9 := by
  refine (find_endofsentences_last_offset "One. Two.").2 8 (by decide) ?_
  intro j hj
  refine eosAnyAt_eq_false_of_length_le _ j ?_
  have h : ("One. Two.").toList.length = 9 := by decide
  omega

/-!
Embedding of `DeepgramTTSService.run_tts` and
`DeepgramSTTService._on_message` (`src/pipecat/services/deepgram.py`).

`run_tts` is an async generator whose whole body sits in one
`try/except`; its interaction with the outside world (the Deepgram speak
request and the returned audio buffer) is modelled by a `TTSOutcome`
value, and the generator's yielded sequence by a list of frames.  Audio
bytes are `Nat`s, metric calls and logging yield nothing and are
dropped.  `_on_message` is modelled as the pure list of frames it pushes:
the `time_now_iso8601()` timestamp is an input `now`, and the `Language`
enum value is modelled by its raw tag string.
-/

/-- The frames `run_tts` can yield: `TTSStartedFrame`, `TTSAudioRawFrame`
(audio, sample_rate, num_channels), `TTSStoppedFrame`, `ErrorFrame`. -/
inductive TTSFrame where
  | started : TTSFrame
  | audioRaw (audio : List Nat) (sample_rate : Nat) (num_channels : Nat) : TTSFrame
  | stopped : TTSFrame
  | errorFrame (message : String) : TTSFrame
deriving DecidableEq

/-- Where the synthesis attempt can go: the speak request raises
(`requestError`), `response.stream_memory` is `None` (the internal
`raise ValueError`), reading chunk `chunksRead` raises mid-loop
(`readError`), or everything succeeds with the buffer's bytes. -/
inductive TTSOutcome where
  | requestError (msg : String) : TTSOutcome
  | missingBuffer : TTSOutcome
  | readError (audio : List Nat) (chunksRead : Nat) (msg : String) : TTSOutcome
  | success (audio : List Nat) : TTSOutcome

/-- `audio_buffer.read(8192)` loop: split the buffer into successive
chunks of at most `chunk_size = 8192` bytes. -/
def readChunks : List Nat → List (List Nat)
  | [] => []
  | b :: rest => ((b :: rest).take 8192) :: readChunks ((b :: rest).drop 8192)
termination_by l => l.length
decreasing_by
  simp [List.length_drop]
  omega

/-- The frames yielded per loop iteration: one `TTSAudioRawFrame` with
`num_channels = 1` and the configured sample rate, then (inside the
loop body) one `TTSStoppedFrame`. -/
def chunkFrames (sr : Nat) (chunks : List (List Nat)) : List TTSFrame :=
  chunks.flatMap (fun c => [TTSFrame.audioRaw c sr 1, TTSFrame.stopped])

/-- `DeepgramTTSService.run_tts`: the yielded frame sequence for each
outcome.  The `except Exception` clause yields
`ErrorFrame("Error getting audio: " + str(e))` after whatever was already
yielded before the exception. -/
def run_tts (sr : Nat) : TTSOutcome → List TTSFrame
  | TTSOutcome.requestError msg =>
      [TTSFrame.errorFrame ("Error getting audio: " ++ msg)]
  | TTSOutcome.missingBuffer =>
      [TTSFrame.started,
       TTSFrame.errorFrame ("Error getting audio: " ++ "No audio data received from Deepgram")]
  | TTSOutcome.readError audio m msg =>
      TTSFrame.started ::
        (chunkFrames sr ((readChunks audio).take m) ++
          [TTSFrame.errorFrame ("Error getting audio: " ++ msg)])
  | TTSOutcome.success audio =>
      TTSFrame.started :: chunkFrames sr (readChunks audio)

/-- The message of the exception raised during an outcome, if any. -/
def raisedMsg : TTSOutcome → Option String
  | TTSOutcome.requestError msg => some msg
  | TTSOutcome.missingBuffer => some "No audio data received from Deepgram"
  | TTSOutcome.readError _ _ msg => some msg
  | TTSOutcome.success _ => none

lemma readChunks_cons (b : Nat) (rest : List Nat) :
    readChunks (b :: rest) = (b :: rest).take 8192 :: readChunks ((b :: rest).drop 8192) := by
  simp [readChunks]

lemma readChunks_flatten_aux : ∀ (n : Nat) (l : List Nat), l.length ≤ n →
    (readChunks l).flatten = l := by
  intro n
  induction n with
  | zero =>
    intro l h
    have hl : l = [] := List.eq_nil_of_length_eq_zero (Nat.le_zero.mp h)
    subst hl
    simp [readChunks]
  | succ n ih =>
    intro l h
    cases l with
    | nil => simp [readChunks]
    | cons b rest =>
      have hlen : ((b :: rest).drop 8192).length ≤ n := by
        simp only [List.length_drop, List.length_cons]
        simp only [List.length_cons] at h
        omega
      rw [readChunks_cons, List.flatten_cons, ih _ hlen, List.take_append_drop]

lemma readChunks_flatten (l : List Nat) : (readChunks l).flatten = l :=
  readChunks_flatten_aux l.length l (Nat.le_refl _)

lemma readChunks_bounds_aux : ∀ (n : Nat) (l : List Nat), l.length ≤ n →
    ∀ c ∈ readChunks l, 0 < c.length ∧ c.length ≤ 8192 := by
  intro n
  induction n with
  | zero =>
    intro l h c hc
    have hl : l = [] := List.eq_nil_of_length_eq_zero (Nat.le_zero.mp h)
    subst hl
    simp [readChunks] at hc
  | succ n ih =>
    intro l h c hc
    cases l with
    | nil => simp [readChunks] at hc
    | cons b rest =>
      rw [readChunks_cons] at hc
      rcases List.mem_cons.mp hc with hc1 | hc2
      · subst hc1
        simp only [List.length_take, List.length_cons]
        omega
      · have hlen : ((b :: rest).drop 8192).length ≤ n := by
          simp only [List.length_drop, List.length_cons]
          simp only [List.length_cons] at h
          omega
        exact ih _ hlen c hc2

lemma readChunks_bounds (l : List Nat) : ∀ c ∈ readChunks l, 0 < c.length ∧ c.length ≤ 8192 :=
  readChunks_bounds_aux l.length l (Nat.le_refl _)

lemma readChunks_ne_nil (l : List Nat) (h : l ≠ []) : readChunks l ≠ [] := by
  cases l with
  | nil => exact absurd rfl h
  | cons b rest =>
    rw [readChunks_cons]
    exact List.cons_ne_nil _ _

lemma chunkFrames_count_stopped (sr : Nat) (chunks : List (List Nat)) :
    (chunkFrames sr chunks).count TTSFrame.stopped = chunks.length := by
  induction chunks with
  | nil => rfl
  | cons c cs ih =>
    have h : chunkFrames sr (c :: cs) =
        TTSFrame.audioRaw c sr 1 :: TTSFrame.stopped :: chunkFrames sr cs := rfl
    have hne : TTSFrame.stopped ≠ TTSFrame.audioRaw c sr 1 := fun hx => TTSFrame.noConfusion hx
    rw [h, List.count_cons_of_ne hne, List.count_cons_self, ih, List.length_cons]

/-- C7: whatever exception is raised during synthesis (the speak request,
the missing audio buffer, or chunk reading), `run_tts` never re-raises:
its yielded stream is a plain list of frames ending with an `ErrorFrame`
whose message is `"Error getting audio: "` followed by the exception's
message. -/
theorem run_tts_error_frame (sr : Nat) (o : TTSOutcome) (msg : String)
    (h : raisedMsg o = some msg) :
    (run_tts sr o).getLast? =
      some (TTSFrame.errorFrame ("Error getting audio: " ++ msg)) ∧
    TTSFrame.errorFrame ("Error getting audio: " ++ msg) ∈ run_tts sr o := by
  cases o with
  | requestError m =>
    simp only [raisedMsg, Option.some.injEq] at h
    subst h
    simp [run_tts]
  | missingBuffer =>
    simp only [raisedMsg, Option.some.injEq] at h
    subst h
    simp [run_tts]
  | readError audio k m =>
    simp only [raisedMsg, Option.some.injEq] at h
    subst h
    constructor
    · show (TTSFrame.started ::
          (chunkFrames sr ((readChunks audio).take k) ++
            [TTSFrame.errorFrame ("Error getting audio: " ++ m)])).getLast? = _
      rw [← List.cons_append, List.getLast?_concat]
    · show TTSFrame.errorFrame ("Error getting audio: " ++ m) ∈
        TTSFrame.started ::
          (chunkFrames sr ((readChunks audio).take k) ++
            [TTSFrame.errorFrame ("Error getting audio: " ++ m)])
      simp
  | success audio => simp [raisedMsg] at h

/-- C7 witness: a failing speak request with message "boom" yields exactly
the error frame. -/
theorem run_tts_error_frame_witness :
    (run_tts 24000 (TTSOutcome.requestError "boom")).getLast? =
      some (TTSFrame.errorFrame ("Error getting audio: " ++ "boom")) ∧
    TTSFrame.errorFrame ("Error getting audio: " ++ "boom") ∈
      run_tts 24000 (TTSOutcome.requestError "boom") :=
  run_tts_error_frame 24000 (TTSOutcome.requestError "boom") "boom" rfl

/-- C10: on a successful synthesis with a non-empty buffer, the yielded
stream is one `TTSStartedFrame` followed, for each of the `n ≥ 1` chunks
(each non-empty and at most 8192 bytes, together the whole buffer), by one
`TTSAudioRawFrame` (`num_channels = 1`, configured sample rate) and then
one `TTSStoppedFrame` — so `TTSStoppedFrame` appears `n` times, once
after every chunk, not once at the end. -/
theorem run_tts_success_stream_shape (sr : Nat) (audio : List Nat) (h : audio ≠ []) :
    ∃ chunks : List (List Nat),
      chunks ≠ [] ∧
      chunks.flatten = audio ∧
      (∀ c ∈ chunks, 0 < c.length ∧ c.length ≤ 8192) ∧
      run_tts sr (TTSOutcome.success audio) =
        TTSFrame.started ::
          chunks.flatMap (fun c => [TTSFrame.audioRaw c sr 1, TTSFrame.stopped]) ∧
      (run_tts sr (TTSOutcome.success audio)).count TTSFrame.stopped = chunks.length := by
  refine ⟨readChunks audio, readChunks_ne_nil audio h, readChunks_flatten audio,
    readChunks_bounds audio, rfl, ?_⟩
  have hne : TTSFrame.stopped ≠ TTSFrame.started := fun hx => TTSFrame.noConfusion hx
  show (TTSFrame.started :: chunkFrames sr (readChunks audio)).count TTSFrame.stopped = _
  rw [List.count_cons_of_ne hne, chunkFrames_count_stopped]

/-- C10 witness: the two-byte buffer `[7, 8]` gives one chunk and the
stream `[started, audioRaw [7, 8], stopped]`. -/
theorem run_tts_success_stream_shape_witness :
    ∃ chunks : List (List Nat),
      chunks ≠ [] ∧
      chunks.flatten = [7, 8] ∧
      (∀ c ∈ chunks, 0 < c.length ∧ c.length ≤ 8192) ∧
      run_tts 24000 (TTSOutcome.success [7, 8]) =
        TTSFrame.started ::
          chunks.flatMap (fun c => [TTSFrame.audioRaw c 24000 1, TTSFrame.stopped]) ∧
      (run_tts 24000 (TTSOutcome.success [7, 8])).count TTSFrame.stopped = chunks.length :=
  run_tts_success_stream_shape 24000 [7, 8] (by decide)

/-- The frames `_on_message` can push: `TranscriptionFrame` and
`InterimTranscriptionFrame` (text, user_id, ISO-8601 timestamp, optional
language tag), plus `UserStoppedSpeakingFrame` when the service acts as
VAD. -/
inductive STTFrame where
  | transcriptionFrame (text user_id timestamp : String) (language : Option String) : STTFrame
  | interimTranscriptionFrame (text user_id timestamp : String) (language : Option String) : STTFrame
  | userStoppedSpeakingFrame : STTFrame
deriving DecidableEq

/-- `result.channel.alternatives[0]`: transcript text and detected
languages (the source converts `languages[0]` with `Language(...)`;
the tag string models that enum value). -/
structure DGAlternative where
  transcript : String
  languages : List String

/-- `result.channel`. -/
structure DGChannel where
  alternatives : List DGAlternative

/-- `LiveResultResponse`, the fields `_on_message` reads. -/
structure DGLiveResultResponse where
  channel : DGChannel
  is_final : Bool

/-- `DeepgramSTTService._on_message`: returns early on zero alternatives,
otherwise takes the first alternative; with a non-empty transcript it
pushes one `TranscriptionFrame` (final) — followed by
`UserStoppedSpeakingFrame` when `vad_enabled` — or one
`InterimTranscriptionFrame` (interim); `now` stands for
`time_now_iso8601()` and the speaker id pushed is `""`. -/
def on_message (vad_enabled : Bool) (now : String) (result : DGLiveResultResponse) :
    List STTFrame :=
  match result.channel.alternatives with
  | [] => []
  | alt :: _ =>
    if alt.transcript.length > 0 then
      if result.is_final then
        STTFrame.transcriptionFrame alt.transcript "" now alt.languages.head? ::
          (if vad_enabled then [STTFrame.userStoppedSpeakingFrame] else [])
      else
        [STTFrame.interimTranscriptionFrame alt.transcript "" now alt.languages.head?]
    else []

/-- Whether a frame wraps a transcript (final or interim). -/
def isTranscriptWrap : STTFrame → Bool
  | STTFrame.transcriptionFrame _ _ _ _ => true
  | STTFrame.interimTranscriptionFrame _ _ _ _ => true
  | STTFrame.userStoppedSpeakingFrame => false

/-- C8: a result with no alternatives, or with an empty transcript, pushes
no frame; a result with a non-empty transcript pushes exactly one
transcript-wrapping frame — `TranscriptionFrame` when final,
`InterimTranscriptionFrame` otherwise — carrying the transcript text, the
speaker id `""`, the `time_now_iso8601()` timestamp, and the optional
first detected language. -/
theorem on_message_frames (vad : Bool) (now : String) (r : DGLiveResultResponse) :
    (r.channel.alternatives = [] → on_message vad now r = []) ∧
    (∀ alt rest, r.channel.alternatives = alt :: rest →
      (alt.transcript.length = 0 → on_message vad now r = []) ∧
      (0 < alt.transcript.length →
        (on_message vad now r).filter isTranscriptWrap =
          [if r.is_final then
              STTFrame.transcriptionFrame alt.transcript "" now alt.languages.head?
            else
              STTFrame.interimTranscriptionFrame alt.transcript "" now alt.languages.head?])) := by
  constructor
  · intro hnil
    unfold on_message
    rw [hnil]
  · intro alt rest hcons
    have hm : on_message vad now r =
        (if alt.transcript.length > 0 then
          (if r.is_final then
            STTFrame.transcriptionFrame alt.transcript "" now alt.languages.head? ::
              (if vad then [STTFrame.userStoppedSpeakingFrame] else [])
          else
            [STTFrame.interimTranscriptionFrame alt.transcript "" now alt.languages.head?])
        else []) := by
      unfold on_message
      rw [hcons]
    constructor
    · intro hzero
      rw [hm, hzero]
      rfl
    · intro hpos
      rw [hm, if_pos hpos]
      cases hf : r.is_final with
      | false => simp [isTranscriptWrap]
      | true => cases vad <;> simp [isTranscriptWrap]

/-- C8 witness: a final result with transcript "hello" and language "en"
pushes exactly the one final transcription frame. -/
theorem on_message_frames_witness :
    (on_message true "2024-01-01T00:00:00Z"
        ⟨⟨[⟨"hello", ["en"]⟩]⟩, true⟩).filter isTranscriptWrap =
      [STTFrame.transcriptionFrame "hello" "" "2024-01-01T00:00:00Z" (some "en")] := by
  have h := ((on_message_frames true "2024-01-01T00:00:00Z"
      ⟨⟨[⟨"hello", ["en"]⟩]⟩, true⟩).2 ⟨"hello", ["en"]⟩ [] rfl).2 (by decide)
  simpa using h
